import Mathlib

/-
Shallow embedding of WaveClean (src/WaveClean.py), an offline speech-cleanup
pipeline built on librosa, noisereduce, scipy and pydub.  Buffers are lists:
float PCM buffers become `List ℚ` (exact-arithmetic idealization of the float
computations) and 16-bit PCM buffers become `List ℤ`.  Library calls that the
script delegates to are embedded from the implementations of those libraries
(pydub 0.25 effects.py / audio_segment.py / silence.py, librosa.effects.split,
scipy.signal.sosfiltfilt, noisereduce SpectralGate), with transcendental
per-sample atoms (dB-to-linear conversions, rms square roots, audioop
rounding) abstracted into explicit function or rational parameters.  A Python
call that raises an exception is embedded as an `Option` returning `none`.
-/

namespace WaveClean

/-- Truncation toward zero, the semantics of the Python and C `int(...)` cast
applied to a real value. -/
def ratTrunc (q : ℚ) : ℤ := if q < 0 then ⌈q⌉ else ⌊q⌋

/-- Python slice `xs[a:b]` for nonnegative bounds: both bounds clamp to the
list length. -/
def pySlice (xs : List α) (a b : ℕ) : List α := (xs.take b).drop a

/-- numpy `np.tile(xs, n)`: `n` copies of `xs` concatenated. -/
def npTile (xs : List α) (n : ℕ) : List α := (List.replicate n xs).flatten

/-- Loop of WaveClean.py lines 146-153: walk the non-silent intervals keeping
`prev_end`, and concatenate the gap `samples[prev_end:start]` collected before
each interval whose `start` exceeds `prev_end`.  (The Python code keeps the
gaps in a list `noise_samples` and skips appending empty slices; since empty
slices contribute nothing to the concatenation, the concatenation computed
here is the same, and `len(noise_samples) > 0` holds exactly when this
concatenation is non-empty.)  Note that the loop never looks past the `end` of
the final interval, so a trailing silence gap is never collected. -/
def collectNoise (samples : List α) : List (ℕ × ℕ) → ℕ → List α
  | [], _ => []
  | (s, e) :: rest, prevEnd =>
      (if prevEnd < s then pySlice samples prevEnd s else []) ++ collectNoise samples rest e

/-- WaveClean.py lines 146-160, the Noise Profile Builder: concatenate the
silence gaps; if none were collected fall back to `samples[:sample_rate]`;
if the concatenation is shorter than `sample_rate` samples, tile it
`sample_rate // len + 1` times and truncate to `sample_rate`; otherwise
keep it as is (no truncation). -/
def buildNoiseProfile (samples : List α) (intervals : List (ℕ × ℕ)) (sampleRate : ℕ) :
    List α :=
  let noise := collectNoise samples intervals 0
  if noise.isEmpty then samples.take sampleRate
  else if noise.length < sampleRate then
    (npTile noise (sampleRate / noise.length + 1)).take sampleRate
  else noise

/- ---------------------------------------------------------------------------
pydub recursive filters (pydub/effects.py, registered on AudioSegment and used
by WaveClean.py lines 135 and 215).  Both filters copy the sample array, keep
the first sample unchanged, and run a first-order recursion over the rest.
The smoothing factor `alpha = RC/(RC+dt)` resp. `dt/(RC+dt)` is an irrational
function of the cutoff and the frame rate, so it is a rational parameter here.
--------------------------------------------------------------------------- -/

/-- Recursion of pydub `high_pass_filter` from index 1 on: the state is the
previously stored output sample (an integer, because pydub stores the clamped
`int(...)` result back into the array and reads it as `lastVal`) and the
previous input sample. -/
def hpGo (alpha : ℚ) (minv maxv : ℤ) : ℤ → ℤ → List ℤ → List ℤ
  | _, _, [] => []
  | lastVal, prev, x :: rest =>
      let hp : ℚ := alpha * ((lastVal : ℚ) + (x : ℚ) - (prev : ℚ))
      let y : ℤ := ratTrunc (min (max hp (minv : ℚ)) (maxv : ℚ))
      y :: hpGo alpha minv maxv y x rest

/-- pydub `high_pass_filter(seg, cutoff)` on a mono segment.  On an empty
segment the initialization loop `lastVal[i] = filteredArray[i]` indexes an
empty array and raises IndexError, embedded as `none`. -/
def pydubHighPassFilter (alpha : ℚ) (minv maxv : ℤ) : List ℤ → Option (List ℤ)
  | [] => none
  | x0 :: rest => some (x0 :: hpGo alpha minv maxv x0 x0 rest)

/-- Recursion of pydub `low_pass_filter` from index 1 on: here the state
`last_val` is kept as a float (only the stored array value is truncated). -/
def lpGo (alpha : ℚ) : ℚ → List ℤ → List ℤ
  | _, [] => []
  | lastVal, x :: rest =>
      let nv := alpha * (x : ℚ) + lastVal * (1 - alpha)
      ratTrunc nv :: lpGo alpha nv rest

/-- pydub `low_pass_filter(seg, cutoff)` on a mono segment; raises IndexError
(`none`) on an empty segment, like the high-pass filter. -/
def pydubLowPassFilter (alpha : ℚ) : List ℤ → Option (List ℤ)
  | [] => none
  | x0 :: rest => some (x0 :: lpGo alpha (x0 : ℚ) rest)

/-- pydub `seg.max`: the maximum absolute sample value (audioop.max), 0 for an
empty segment. -/
def maxAbsInt (xs : List ℤ) : ℕ := (xs.map Int.natAbs).foldr max 0

/-- pydub `apply_gain`: audioop.mul multiplies every sample by a fixed float
factor (with rounding and saturation); the per-sample operation is the
parameter `mulGain`. -/
def pydubApplyGain (mulGain : ℤ → ℤ) (xs : List ℤ) : List ℤ := xs.map mulGain

/-- pydub `effects.normalize(seg, headroom)`: if the peak is 0 the segment is
returned unchanged, otherwise a fixed gain is applied to every sample. -/
def pydubNormalizeSeg (mulGain : ℤ → ℤ) (xs : List ℤ) : List ℤ :=
  if maxAbsInt xs = 0 then xs else pydubApplyGain mulGain xs

/-- WaveClean.py lines 210-215, the stages after the chunk loop: concatenate
the faded chunks (`sum(faded_chunks, AudioSegment.empty())`), normalize with
headroom, apply gain toward the target loudness, then the final low-pass and
high-pass shaping filters.  `gNorm` and `gTarget` abstract the two audioop
gain maps; the two alphas are the filter smoothing factors. -/
def pipelineTail (gNorm gTarget : ℤ → ℤ) (lpAlpha hpAlpha : ℚ)
    (chunks : List (List ℤ)) : Option (List ℤ) :=
  let output := chunks.flatten
  let o1 := pydubNormalizeSeg gNorm output
  let o2 := pydubApplyGain gTarget o1
  match pydubLowPassFilter lpAlpha o2 with
  | none => none
  | some o3 => pydubHighPassFilter hpAlpha (-32768) 32767 o3

/- ---------------------------------------------------------------------------
librosa.effects.split (WaveClean.py lines 139-144).  librosa frames the
zero-padded signal (rms with center=True and constant padding), computes the
mean-square power of each frame, and marks a frame non-silent when its power
is within `top_db` decibels of the maximum frame power:
  power_to_db(p, ref) > -top_db  iff  max(amin, p) > 10^(-top_db/10) * max(amin, ref).
The strictly monotone reparameterization `tau = 10^(-top_db/10)` (and librosa
amin = 1e-10 = 1/10^10) makes the comparison rational.  Runs of consecutive
non-silent frames become intervals `(start_frame*hop, end_frame*hop)`, with
both edges clamped to the signal length (np.minimum(edges, len)).
--------------------------------------------------------------------------- -/

/-- Sum of squares of a list of samples. -/
def sumSq (xs : List ℚ) : ℚ := (xs.map (fun v => v * v)).sum

/-- Signal as padded by librosa.feature.rms with center=True: `frame_length/2`
zeros on each side. -/
def lrPadded (fl : ℕ) (y : List ℚ) : List ℚ :=
  List.replicate (fl / 2) 0 ++ y ++ List.replicate (fl / 2) 0

/-- Number of analysis frames of the padded signal. -/
def lrFrameCount (fl hop : ℕ) (y : List ℚ) : ℕ :=
  ((lrPadded fl y).length - fl) / hop + 1

/-- Mean-square power of frame `i` (librosa rms squared). -/
def lrFramePower (fl hop : ℕ) (y : List ℚ) (i : ℕ) : ℚ :=
  sumSq (((lrPadded fl y).drop (i * hop)).take fl) / (fl : ℚ)

/-- Reference power: the maximum frame power (`ref=np.max` default). -/
def lrRefPower (fl hop : ℕ) (y : List ℚ) : ℚ :=
  ((List.range (lrFrameCount fl hop y)).map (lrFramePower fl hop y)).foldr max 0

/-- Per-frame non-silence flags: frame `i` is non-silent iff
`max(amin, power_i) > tau * max(amin, ref)`, the linear-domain form of
librosa `power_to_db(mse, ref) > -top_db`. -/
def lrNonSilent (amin tau : ℚ) (fl hop : ℕ) (y : List ℚ) : List Bool :=
  (List.range (lrFrameCount fl hop y)).map
    (fun i => decide (tau * max amin (lrRefPower fl hop y) < max amin (lrFramePower fl hop y i)))

/-- Maximal runs of `true` flags, as half-open frame index pairs; the second
argument is the index of the next flag and the third the start of the
currently open run, if any. -/
def boolRunsAux : List Bool → ℕ → Option ℕ → List (ℕ × ℕ)
  | [], _, none => []
  | [], i, some s => [(s, i)]
  | b :: rest, i, none =>
      if b then boolRunsAux rest (i + 1) (some i) else boolRunsAux rest (i + 1) none
  | b :: rest, i, some s =>
      if b then boolRunsAux rest (i + 1) (some s) else (s, i) :: boolRunsAux rest (i + 1) none

def boolRuns (flags : List Bool) : List (ℕ × ℕ) := boolRunsAux flags 0 none

/-- librosa frames_to_samples plus the final `np.minimum(edges, len)` clamp. -/
def framesToIntervals (hop n : ℕ) (runs : List (ℕ × ℕ)) : List (ℕ × ℕ) :=
  runs.map (fun p => (min (p.1 * hop) n, min (p.2 * hop) n))

/-- librosa.effects.split, at linear threshold `tau = 10^(-top_db/10)`. -/
def librosaSplit (amin tau : ℚ) (fl hop : ℕ) (y : List ℚ) : List (ℕ × ℕ) :=
  framesToIntervals hop y.length (boolRuns (lrNonSilent amin tau fl hop y))

/-- Sample `x` is covered by one of the intervals. -/
def coveredBy (ivs : List (ℕ × ℕ)) (x : ℕ) : Prop := ∃ p ∈ ivs, p.1 ≤ x ∧ x < p.2

/- ---------------------------------------------------------------------------
pydub fades (AudioSegment.fade, used by WaveClean.py lines 204-208) and the
chunk loop.  `len(chunk)` is the chunk duration in milliseconds; the loop
computes `fade_time = min(50, duration // 4)` and applies
`chunk.fade_in(fade_time).fade_out(fade_time)`.  pydub `fade` with
`duration=0` raises: `if duration:` treats 0 as not given and evaluates
`duration = end - start` with a `None` operand (TypeError); even under the
`duration is not None` reading the precise branch divides the gain step by
`fade_frames = 0` (ZeroDivisionError).  Either way a zero fade raises, so a
zero duration is embedded as `none`.  The per-sample audioop.mul at a linear
volume factor is the parameter `mulAt`; `fromPower`/`toPower` stand for
`db_to_float(-120)`, the endpoint of the fade ramp.
--------------------------------------------------------------------------- -/

/-- WaveClean.py line 207: `fade_time = min(50, duration // 4)`. -/
def fadeTime (durationMs : ℕ) : ℕ := min 50 (durationMs / 4)

/-- pydub `fade_in(fadeMs)` on a mono segment at `frameRate`: the first
`fade_frames` samples are scaled by a linear ramp from `fromPower` to 1, the
rest are unchanged (to_gain = 0). -/
def pydubFadeIn (mulAt : ℚ → ℤ → ℤ) (fromPower : ℚ) (frameRate : ℕ)
    (seg : List ℤ) (fadeMs : ℕ) : Option (List ℤ) :=
  if fadeMs = 0 then none
  else
    let fadeFrames := frameRate * fadeMs / 1000
    some
      (((seg.take fadeFrames).enum.map
          (fun p => mulAt (fromPower + (1 - fromPower) * (p.1 : ℚ) / (fadeFrames : ℚ)) p.2))
        ++ seg.drop fadeFrames)

/-- pydub `fade_out(fadeMs)`: the last `fade_frames` samples are scaled by a
ramp from 1 toward `toPower`, the prefix is unchanged (from_gain = 0). -/
def pydubFadeOut (mulAt : ℚ → ℤ → ℤ) (toPower : ℚ) (frameRate : ℕ)
    (seg : List ℤ) (fadeMs : ℕ) : Option (List ℤ) :=
  if fadeMs = 0 then none
  else
    let fadeFrames := frameRate * fadeMs / 1000
    let start := seg.length - fadeFrames
    some
      (seg.take start ++
        ((seg.drop start).enum.map
          (fun p => mulAt (1 + (toPower - 1) * (p.1 : ℚ) / (fadeFrames : ℚ)) p.2)))

/-- Body of the chunk loop, WaveClean.py lines 205-208: compute the fade time
from the chunk duration (in ms) and apply fade-in then fade-out. -/
def processChunk (mulAt : ℚ → ℤ → ℤ) (fromPower toPower : ℚ) (frameRate : ℕ)
    (chunkMs : ℕ) (seg : List ℤ) : Option (List ℤ) :=
  let ft := fadeTime chunkMs
  match pydubFadeIn mulAt fromPower frameRate seg ft with
  | none => none
  | some s2 => pydubFadeOut mulAt toPower frameRate s2 ft

/- ---------------------------------------------------------------------------
scipy.signal.sosfiltfilt with a single second-order section, the form produced
by `signal.butter(2, breath_cutoff, hp, fs=sample_rate, output=sos)` and
applied at WaveClean.py lines 173-174.  The Butterworth coefficients and the
steady-state initial conditions `sosfilt_zi(sos)` are irrational, so they are
rational parameters `b0..a2, zi1, zi2`; the structure (odd extension by
`edge = 3 * ntaps` samples where `ntaps = 2*n_sections + 1 - min(#{b2 = 0},
#{a2 = 0})`, forward pass, time-reversed second pass, and removal of the
extension) follows scipy.  scipy raises ValueError when the input is not
longer than `edge` samples, embedded as `none`.
--------------------------------------------------------------------------- -/

/-- One step of a direct-form-II-transposed biquad: returns the output sample
and the two updated state values. -/
def biquadStep (b0 b1 b2 a1 a2 x z1 z2 : ℚ) : ℚ × ℚ × ℚ :=
  let y := b0 * x + z1
  (y, b1 * x - a1 * y + z2, b2 * x - a2 * y)

/-- scipy `sosfilt` with one section, from given initial state. -/
def sosfiltAux (b0 b1 b2 a1 a2 : ℚ) : List ℚ → ℚ → ℚ → List ℚ
  | [], _, _ => []
  | x :: rest, z1, z2 =>
      let r := biquadStep b0 b1 b2 a1 a2 x z1 z2
      r.1 :: sosfiltAux b0 b1 b2 a1 a2 rest r.2.1 r.2.2

/-- scipy `odd_ext(x, edge)`: reflect `edge` samples around the first and last
sample (2*x0 - x[edge..1] in front, 2*x_last - x[n-2..n-1-edge] behind). -/
def oddExt (edge : ℕ) (xs : List ℚ) : List ℚ :=
  let h := xs.headD 0
  let l := xs.getLastD 0
  (((xs.drop 1).take edge).reverse.map (fun v => 2 * h - v)) ++ xs ++
    ((xs.dropLast.reverse.take edge).map (fun v => 2 * l - v))

/-- scipy `sosfiltfilt` for a single second-order section. -/
def sosfiltfiltBiquad (b0 b1 b2 a1 a2 zi1 zi2 : ℚ) (xs : List ℚ) : Option (List ℚ) :=
  let ntaps := 3 - min (if b2 = 0 then 1 else 0) (if a2 = 0 then 1 else 0)
  let edge := 3 * ntaps
  if xs.length ≤ edge then none
  else
    let ext := oddExt edge xs
    let x0 := ext.headD 0
    let fwd := sosfiltAux b0 b1 b2 a1 a2 ext (zi1 * x0) (zi2 * x0)
    let y0 := fwd.getLastD 0
    let bwd := (sosfiltAux b0 b1 b2 a1 a2 fwd.reverse (zi1 * y0) (zi2 * y0)).reverse
    some ((bwd.drop edge).take xs.length)

/-- noisereduce `reduce_noise` (WaveClean.py lines 162-171 and 177-186), outer
structure for a signal no longer than the 600000-sample chunk threshold: the
chunk read is the whole signal (the boundary padding is clipped away by
`max(0, 0 - padding)` / `min(n, n + padding)`), the spectral gate `_do_filter`
(stft, gating, istft — abstracted as `doFilter`) runs on it, and the result is
sliced back to `[start_frame - i1b : end_frame - i1b] = [0 : n]`, a clamping
slice, so the output is the first `n` samples of whatever the gate returned. -/
def nrReduceNoise (doFilter : List ℚ → List ℚ) (y : List ℚ) : List ℚ :=
  (doFilter y).take y.length

/-- WaveClean.py line 137: int16 samples scaled to floats in [-1, 1]. -/
def toFloatSamples (xs : List ℤ) : List ℚ := xs.map (fun (z : ℤ) => (z : ℚ) / 32767)

/-- Two-complement wraparound of an integer into the int16 range. -/
def wrap16 (z : ℤ) : ℤ := (z + 32768) % 65536 - 32768

/-- WaveClean.py line 189: `(x * 32767).astype(np.int16)` per sample — numpy
casts the float to an integer by truncation toward zero and keeps only the low
16 bits (two-complement wraparound, no saturation; valid for the C cast as
long as the magnitude stays below 2^31). -/
def toInt16 (q : ℚ) : ℤ := wrap16 (ratTrunc (q * 32767))

/-- WaveClean.py lines 188-193: the cleaned float signal converted back to a
16-bit buffer, sample by sample. -/
def toInt16Samples (ys : List ℚ) : List ℤ := ys.map toInt16

/- ---------------------------------------------------------------------------
pydub `compress_dynamic_range` (WaveClean.py line 195).  One output frame per
input frame; the attenuation state (in dB) follows the rms of a look-back
window.  The float atoms — rms of a slice, `db_over_threshold`, and
audioop.mul at `db_to_float(-attenuation)` — are parameters.
--------------------------------------------------------------------------- -/

/-- Per-frame loop of compress_dynamic_range over the frame indices, carrying
the current attenuation in dB. -/
def compressGo (rmsOf : List ℤ → ℚ) (dbOver : ℚ → ℚ) (mulAt : ℚ → ℤ → ℤ)
    (threshRms cRatio atkFrames relFrames : ℚ) (look : ℕ) (xs : List ℤ) :
    List ℕ → ℚ → List ℤ
  | [], _ => []
  | i :: rest, att =>
      let rmsNow := rmsOf (pySlice xs (i - look) i)
      let maxAtt := (1 - 1 / cRatio) * dbOver rmsNow
      let attNew :=
        if threshRms < rmsNow ∧ att ≤ maxAtt then min (att + maxAtt / atkFrames) maxAtt
        else max (att - maxAtt / relFrames) 0
      let sample := xs.getD i 0
      (if 1 / 100 < |attNew| then mulAt (-attNew) sample else sample) ::
        compressGo rmsOf dbOver mulAt threshRms cRatio atkFrames relFrames look xs rest attNew

/-- pydub `compress_dynamic_range(seg, threshold, cRatio, attack, release)` on
a mono segment: iterate over all frame indices starting from attenuation 0. -/
def pydubCompressDynamicRange (rmsOf : List ℤ → ℚ) (dbOver : ℚ → ℚ)
    (mulAt : ℚ → ℤ → ℤ) (threshRms cRatio atkFrames relFrames : ℚ) (look : ℕ)
    (xs : List ℤ) : List ℤ :=
  compressGo rmsOf dbOver mulAt threshRms cRatio atkFrames relFrames look xs
    (List.range xs.length) 0

/- ---------------------------------------------------------------------------
Loudness Normalizer stage (WaveClean.py lines 212-213) in exact linear
arithmetic over float buffers: `normalize(output, headroom=1.5)` scales the
buffer so its peak hits the headroom peak (unchanged if the peak is 0), and
`apply_gain(target_dBFS - output.dBFS)` scales by 10^((T-L)/20), i.e. by the
nonnegative factor `g` whose square moves the mean power (the square of the
rms behind `dBFS`) exactly to the target power; that factor is irrational in
general, so the gain step is embedded relationally.
--------------------------------------------------------------------------- -/

/-- Scale every sample by `g`. -/
def scaleQ (g : ℚ) (xs : List ℚ) : List ℚ := xs.map (fun v => g * v)

/-- Peak (maximum absolute sample value), 0 for an empty buffer. -/
def maxAbsQ (xs : List ℚ) : ℚ := (xs.map (fun v => |v|)).foldr max 0

/-- Mean power: the square of the rms loudness behind pydub `dBFS` (same
ordering, since squaring and log are monotone on nonnegatives). -/
def meanPower (xs : List ℚ) : ℚ := sumSq xs / (xs.length : ℚ)

/-- pydub `normalize(seg, headroom)`: gain by `headroomPeak / peak`
(`headroomPeak` is the irrational `max_amplitude * 10^(-headroom/20)`, kept
as a parameter); unchanged when the peak is 0. -/
def pydubNormalizeLin (headroomPeak : ℚ) (xs : List ℚ) : List ℚ :=
  if maxAbsQ xs = 0 then xs else scaleQ (headroomPeak / maxAbsQ xs) xs

/-- Relational embedding of `apply_gain(target_dBFS - xs.dBFS)`: `ys` is `xs`
scaled by the nonnegative factor that moves the mean power to `targetPower`
(= `max_amplitude^2 * 10^(target_dBFS/10)`). -/
def GainToTarget (targetPower : ℚ) (xs ys : List ℚ) : Prop :=
  ∃ g : ℚ, 0 ≤ g ∧ ys = scaleQ g xs ∧ g ^ 2 * meanPower xs = targetPower

/-- The whole Normalizer stage: peak-normalize, then gain to the target. -/
def NormalizerStage (headroomPeak targetPower : ℚ) (x y : List ℚ) : Prop :=
  GainToTarget targetPower (pydubNormalizeLin headroomPeak x) y

/- ---------------------------------------------------------------------------
Control flow of process_advanced_audio (WaveClean.py lines 119-221) around the
temporary WAV file of an MP4 input.  `extract_audio_from_mp4` creates the
temporary file (NamedTemporaryFile with delete=False) before invoking ffmpeg;
the stages of the body may raise; `os.remove(temp_file)` runs only on the
straight-line path after a successful export (no try/finally).
--------------------------------------------------------------------------- -/

structure RunOutcome where
  success : Bool
  tempRemains : Bool
deriving DecidableEq

/-- Run the pipeline stages in order; the first failing stage raises, skipping
everything after it, and the error records its index. -/
def runStages : List Bool → Except ℕ Unit
  | [] => Except.ok ()
  | b :: rest =>
      if b then
        match runStages rest with
        | Except.ok _ => Except.ok ()
        | Except.error i => Except.error (i + 1)
      else Except.error 0

/-- Outcome of one `process_advanced_audio` run: for an MP4 input the
temporary file is created first (even a failing extraction leaves it on
disk); any stage exception propagates past the cleanup at lines 219-221, so
the temporary file is removed only on full success. -/
def processAdvancedAudio (isMp4 ffmpegOk : Bool) (stageOk : List Bool) : RunOutcome :=
  if isMp4 then
    if ffmpegOk then
      match runStages stageOk with
      | Except.error _ => { success := false, tempRemains := true }
      | Except.ok _ => { success := true, tempRemains := false }
    else { success := false, tempRemains := true }
  else
    match runStages stageOk with
    | Except.error _ => { success := false, tempRemains := false }
    | Except.ok _ => { success := true, tempRemains := false }

/- ===========================================================================
Theorems
=========================================================================== -/

theorem npTile_length (xs : List α) (n : ℕ) : (npTile xs n).length = n * xs.length := by
  simp [npTile]

theorem sampleRate_lt_tile_length (len sr : ℕ) (hlen : 0 < len) :
    sr < (sr / len + 1) * len := by
  have hmod : sr % len < len := Nat.mod_lt _ hlen
  calc sr = len * (sr / len) + sr % len := (Nat.div_add_mod sr len).symm
    _ < len * (sr / len) + len := by omega
    _ = (sr / len + 1) * len := by ring

theorem buildNoiseProfile_length (samples : List α) (intervals : List (ℕ × ℕ))
    (sampleRate : ℕ) :
    (buildNoiseProfile samples intervals sampleRate).length =
      if (collectNoise samples intervals 0).isEmpty then
        min sampleRate samples.length
      else
        max (collectNoise samples intervals 0).length sampleRate := by
  unfold buildNoiseProfile
  set noise := collectNoise samples intervals 0 with hn
  by_cases hemp : noise.isEmpty
  · simp [hemp]
  · have hne : noise ≠ [] := by simpa [List.isEmpty_iff] using hemp
    have hlen : 0 < noise.length := List.length_pos.mpr hne
    rw [if_neg hemp, if_neg hemp]
    by_cases hlt : noise.length < sampleRate
    · have hgt : sampleRate < (sampleRate / noise.length + 1) * noise.length :=
        sampleRate_lt_tile_length noise.length sampleRate hlen
      rw [if_pos hlt, List.length_take, npTile_length]
      rw [Nat.max_eq_right (le_of_lt hlt)]
      omega
    · rw [if_neg hlt, Nat.max_eq_left (le_of_not_lt hlt)]

/-- Claim C1 (amended): the Noise Profile length is `sample_rate` exactly when
silence gaps exist and their concatenation is shorter than `sample_rate`
(cyclic tiling then truncation); when the concatenated silence is at least
`sample_rate` samples it is kept whole, giving length
`max gaps sample_rate = gaps`; and when no gap exists the first 1-second
window gives length `min sample_rate (buffer length)`. -/
theorem c1_noise_profile_length (samples : List ℚ) (intervals : List (ℕ × ℕ))
    (sampleRate : ℕ) :
    (buildNoiseProfile samples intervals sampleRate).length =
      if (collectNoise samples intervals 0).isEmpty then
        min sampleRate samples.length
      else
        max (collectNoise samples intervals 0).length sampleRate :=
  buildNoiseProfile_length samples intervals sampleRate

/-- Claim C1 counterexample: a non-empty 30-sample buffer at `sample_rate` 10
whose single valid non-silent interval is (20, 30) yields 2 seconds of
collected silence, and the Noise Profile keeps all 20 samples instead of the
claimed exactly-one-second 10. -/
theorem c1_counterexample :
    List.replicate 30 (1 : ℚ) ≠ [] ∧ 20 < 30 ∧ 30 ≤ 30 ∧
      (buildNoiseProfile (List.replicate 30 (1 : ℚ)) [(20, 30)] 10).length = 20 ∧
      (buildNoiseProfile (List.replicate 30 (1 : ℚ)) [(20, 30)] 10).length ≠ 10 := by
  refine ⟨by simp, by norm_num, by norm_num, by decide, by decide⟩

/-- Claim C3 (amended): for the 10-second scenario (scaled to 10 samples per
second, buffer = the 100 first naturals, non-silent intervals (20, 40) and
(60, 90)), the Noise Profile Builder concatenates only the gaps 0-2 s and
4-6 s that precede the intervals, never the trailing gap 9-10 s, and keeps
the 4 collected seconds whole with no truncation to 1 second. -/
theorem c3_gap_collection :
    buildNoiseProfile ((List.range 100).map (fun i => (i : ℚ))) [(20, 40), (60, 90)] 10 =
        pySlice ((List.range 100).map (fun i => (i : ℚ))) 0 20 ++
          pySlice ((List.range 100).map (fun i => (i : ℚ))) 40 60 ∧
      (buildNoiseProfile ((List.range 100).map (fun i => (i : ℚ))) [(20, 40), (60, 90)]
          10).length = 40 ∧
      (45 : ℚ) ∈
        buildNoiseProfile ((List.range 100).map (fun i => (i : ℚ))) [(20, 40), (60, 90)] 10 ∧
      (95 : ℚ) ∉
        buildNoiseProfile ((List.range 100).map (fun i => (i : ℚ))) [(20, 40), (60, 90)] 10 := by
  refine ⟨by decide, by decide, by decide, by decide⟩

/-- Claim C3 counterexample: in the cited scenario the profile has 40 samples,
not the 1 second = 10 samples the claim asserts after truncation, and the
trailing-gap sample 95 the claim says is concatenated is absent. -/
theorem c3_counterexample :
    (buildNoiseProfile ((List.range 100).map (fun i => (i : ℚ))) [(20, 40), (60, 90)]
        10).length = 40 ∧
      (40 : ℕ) ≠ 10 ∧
      (95 : ℚ) ∉
        buildNoiseProfile ((List.range 100).map (fun i => (i : ℚ))) [(20, 40), (60, 90)] 10 := by
  refine ⟨by decide, by decide, by decide⟩

theorem wrap16_eq_self (z : ℤ) (h1 : -32768 ≤ z) (h2 : z < 32768) : wrap16 z = z := by
  unfold wrap16
  omega

theorem ratTrunc_abs_le (v : ℚ) : |(ratTrunc v : ℚ)| ≤ |v| := by
  unfold ratTrunc
  by_cases hv : v < 0
  · rw [if_pos hv]
    have h1 : v ≤ (⌈v⌉ : ℚ) := Int.le_ceil v
    have h2 : (⌈v⌉ : ℚ) ≤ 0 := by
      have := Int.ceil_le.mpr (le_of_lt hv)
      exact_mod_cast Int.cast_le.mpr (by simpa using this)
    rw [abs_of_nonpos h2, abs_of_nonpos (le_of_lt hv)]
    linarith
  · rw [if_neg hv]
    push_neg at hv
    have h1 : (⌊v⌋ : ℚ) ≤ v := Int.floor_le v
    have h2 : (0 : ℚ) ≤ (⌊v⌋ : ℚ) := by exact_mod_cast Int.floor_nonneg.mpr hv
    rw [abs_of_nonneg h2, abs_of_nonneg hv]
    exact h1

theorem ratTrunc_err_lt (v : ℚ) : |(ratTrunc v : ℚ) - v| < 1 := by
  unfold ratTrunc
  by_cases hv : v < 0
  · rw [if_pos hv]
    have h1 : v ≤ (⌈v⌉ : ℚ) := Int.le_ceil v
    have h2 : (⌈v⌉ : ℚ) < v + 1 := Int.ceil_lt_add_one v
    rw [abs_of_nonneg (by linarith)]
    linarith
  · rw [if_neg hv]
    have h1 : (⌊v⌋ : ℚ) ≤ v := Int.floor_le v
    have h2 : v < (⌊v⌋ : ℚ) + 1 := Int.lt_floor_add_one v
    rw [abs_of_nonpos (by linarith)]
    linarith

/-- Claim C9: the int16 reconstruction multiplies by 32767 and truncates with
two-complement wraparound and no clamping: any sample of magnitude at most 1
converts exactly to the truncation (quantization error below one step), every
sample converts to a value congruent to the truncation modulo 2^16 inside the
int16 range (so overflow wraps instead of saturating), and the concrete
over-full-scale sample 3/2 wraps to -16386 rather than clamping to 32767. -/
theorem c9_int16_conversion (q : ℚ) (h : |q| ≤ 1) :
    toInt16 q = ratTrunc (q * 32767) ∧
      |(toInt16 q : ℚ) - q * 32767| < 1 ∧
      (∀ r : ℚ, toInt16 r % 65536 = ratTrunc (r * 32767) % 65536) ∧
      (∀ r : ℚ, -32768 ≤ toInt16 r ∧ toInt16 r < 32768) ∧
      toInt16 (3 / 2) = -16386 ∧ toInt16 (3 / 2) ≠ 32767 := by
  have habs : |q * 32767| ≤ 32767 := by
    rw [abs_mul]
    calc |q| * |(32767 : ℚ)| ≤ 1 * |(32767 : ℚ)| := by
          apply mul_le_mul_of_nonneg_right h (abs_nonneg _)
      _ = 32767 := by norm_num
  have htr : |(ratTrunc (q * 32767) : ℚ)| ≤ 32767 :=
    le_trans (ratTrunc_abs_le (q * 32767)) habs
  have hrange : -32768 ≤ ratTrunc (q * 32767) ∧ ratTrunc (q * 32767) < 32768 := by
    rw [abs_le] at htr
    constructor
    · exact_mod_cast le_trans (by norm_num : (-32768 : ℚ) ≤ -32767) htr.1
    · exact_mod_cast lt_of_le_of_lt htr.2 (by norm_num : (32767 : ℚ) < 32768)
  have heq : toInt16 q = ratTrunc (q * 32767) := by
    unfold toInt16
    exact wrap16_eq_self _ hrange.1 hrange.2
  have hconc : toInt16 (3 / 2) = -16386 := by
    have hfl : ⌊(3 / 2 * 32767 : ℚ)⌋ = 49150 := by
      rw [Int.floor_eq_iff]
      norm_num
    unfold toInt16 ratTrunc wrap16
    rw [if_neg (by norm_num), hfl]
    decide
  refine ⟨heq, ?_, ?_, ?_, hconc, by rw [hconc]; decide⟩
  · rw [heq]
    exact ratTrunc_err_lt (q * 32767)
  · intro r
    unfold toInt16 wrap16
    omega
  · intro r
    unfold toInt16 wrap16
    constructor <;> omega

/-- Claim C9 witness: the in-range sample 1/2 converts exactly. -/
theorem c9_int16_conversion_witness :
    |(1 / 2 : ℚ)| ≤ 1 ∧ toInt16 (1 / 2) = ratTrunc ((1 / 2) * 32767) := by
  have habs : |(1 / 2 : ℚ)| ≤ 1 := by
    rw [abs_of_nonneg (by norm_num : (0 : ℚ) ≤ 1 / 2)]
    norm_num
  exact ⟨habs, (c9_int16_conversion (1 / 2) habs).1⟩

theorem runStages_ok_iff (stageOk : List Bool) :
    runStages stageOk = Except.ok () ↔ stageOk.all id = true := by
  induction stageOk with
  | nil => simp [runStages]
  | cons b rest ih =>
      cases b with
      | false => simp [runStages]
      | true =>
          simp only [runStages, if_true, List.all_cons, id, Bool.true_and]
          cases hr : runStages rest with
          | ok u => simpa [hr] using ih
          | error i => simpa [hr] using ih

/-- Claim C10: for an MP4 input, the temporary WAV file is removed exactly
when the run succeeds, the run succeeds exactly when every stage after
extraction succeeds (any exception skips the cleanup at the end of
process_advanced_audio, leaving the file on disk), and a non-MP4 input never
leaves a temporary file. -/
theorem c10_temp_file_lifecycle (stageOk : List Bool) :
    ((processAdvancedAudio true true stageOk).tempRemains = false ↔
        (processAdvancedAudio true true stageOk).success = true) ∧
      ((processAdvancedAudio true true stageOk).success = true ↔ stageOk.all id = true) ∧
      (processAdvancedAudio false true stageOk).tempRemains = false := by
  unfold processAdvancedAudio
  cases hr : runStages stageOk with
  | ok u =>
      have hall : stageOk.all id = true := by
        have := (runStages_ok_iff stageOk).mp (by rw [hr])
        exact this
      simp [hr, hall]
  | error i =>
      have hnall : ¬ stageOk.all id = true := by
        intro hall
        have := (runStages_ok_iff stageOk).mpr hall
        rw [hr] at this
        exact Except.noConfusion this
      simp [hr, hnall]

theorem hpGo_length (alpha : ℚ) (minv maxv : ℤ) :
    ∀ (xs : List ℤ) (lastVal prev : ℤ),
      (hpGo alpha minv maxv lastVal prev xs).length = xs.length := by
  intro xs
  induction xs with
  | nil => intro l p; rfl
  | cons x rest ih => intro l p; simp only [hpGo, List.length_cons, ih]

theorem pydubHighPassFilter_some_length (alpha : ℚ) (minv maxv : ℤ) (xs : List ℤ)
    (h : xs ≠ []) :
    ∃ ys, pydubHighPassFilter alpha minv maxv xs = some ys ∧ ys.length = xs.length := by
  cases xs with
  | nil => exact absurd rfl h
  | cons x rest =>
      exact ⟨x :: hpGo alpha minv maxv x x rest, rfl, by
        simp only [List.length_cons, hpGo_length]⟩

/-- Claim C4 (amended): the Pre-filter (pydub high_pass_filter at the fixed
80 Hz cutoff, a first-order recursive filter, applied at line 135 before any
other processing) produces an output of length identical to the input for
every non-empty input buffer; on an empty buffer it raises IndexError instead
of returning an empty output. -/
theorem c4_prefilter (alpha : ℚ) (minv maxv : ℤ) (xs : List ℤ) (h : xs ≠ []) :
    (∃ ys, pydubHighPassFilter alpha minv maxv xs = some ys ∧ ys.length = xs.length) ∧
      pydubHighPassFilter alpha minv maxv [] = none :=
  ⟨pydubHighPassFilter_some_length alpha minv maxv xs h, rfl⟩

/-- Claim C4 witness: the filter succeeds with preserved length on a concrete
two-sample buffer. -/
theorem c4_prefilter_witness :
    ([5, 7] : List ℤ) ≠ [] ∧
      ∃ ys, pydubHighPassFilter (1 / 2) (-32768) 32767 [5, 7] = some ys ∧ ys.length = 2 := by
  have hne : ([5, 7] : List ℤ) ≠ [] := by simp
  exact ⟨hne, (c4_prefilter (1 / 2) (-32768) 32767 [5, 7] hne).1⟩

/-- Claim C4 counterexample: on the empty input buffer the pre-filter raises
(none), not the empty output the claim promises. -/
theorem c4_counterexample :
    pydubHighPassFilter (1 / 2) (-32768) 32767 ([] : List ℤ) = none ∧
      (none : Option (List ℤ)) ≠ some [] :=
  ⟨rfl, by simp⟩

theorem pydubFadeIn_some_length (mulAt : ℚ → ℤ → ℤ) (fp : ℚ) (fr : ℕ) (seg : List ℤ)
    (fadeMs : ℕ) (h : fadeMs ≠ 0) :
    ∃ ys, pydubFadeIn mulAt fp fr seg fadeMs = some ys ∧ ys.length = seg.length := by
  unfold pydubFadeIn
  rw [if_neg h]
  refine ⟨_, rfl, ?_⟩
  simp only [List.length_append, List.length_map, List.enum_length, List.length_take,
    List.length_drop]
  omega

theorem pydubFadeOut_some_length (mulAt : ℚ → ℤ → ℤ) (tp : ℚ) (fr : ℕ) (seg : List ℤ)
    (fadeMs : ℕ) (h : fadeMs ≠ 0) :
    ∃ ys, pydubFadeOut mulAt tp fr seg fadeMs = some ys ∧ ys.length = seg.length := by
  unfold pydubFadeOut
  rw [if_neg h]
  refine ⟨_, rfl, ?_⟩
  simp only [List.length_append, List.length_map, List.enum_length, List.length_take,
    List.length_drop]
  omega

theorem processChunk_some_length (mulAt : ℚ → ℤ → ℤ) (fp tp : ℚ) (fr chunkMs : ℕ)
    (seg : List ℤ) (h : fadeTime chunkMs ≠ 0) :
    ∃ ys, processChunk mulAt fp tp fr chunkMs seg = some ys ∧ ys.length = seg.length := by
  obtain ⟨y1, hy1, hl1⟩ := pydubFadeIn_some_length mulAt fp fr seg (fadeTime chunkMs) h
  obtain ⟨y2, hy2, hl2⟩ := pydubFadeOut_some_length mulAt tp fr y1 (fadeTime chunkMs) h
  refine ⟨y2, ?_, by omega⟩
  unfold processChunk
  simp only [hy1, hy2]

/-- Claim C5 (amended): every chunk gets fade length
`min(50 ms, duration // 4)`, which never exceeds 50 ms nor a quarter of the
chunk duration, and a 40 ms chunk gets a 10 ms fade; fading succeeds with
preserved sample count whenever the computed fade time is nonzero, but for a
chunk shorter than 4 ms the fade time degenerates to 0 and pydub fade raises
instead of applying a no-op fade. -/
theorem c5_fade_policy :
    (∀ d : ℕ, fadeTime d ≤ 50) ∧
      (∀ d : ℕ, 4 * fadeTime d ≤ d) ∧
      fadeTime 40 = 10 ∧
      (∀ (mulAt : ℚ → ℤ → ℤ) (fp tp : ℚ) (fr chunkMs : ℕ) (seg : List ℤ),
          fadeTime chunkMs ≠ 0 →
          ∃ ys, processChunk mulAt fp tp fr chunkMs seg = some ys ∧
            ys.length = seg.length) ∧
      (∀ (mulAt : ℚ → ℤ → ℤ) (fp tp : ℚ) (fr : ℕ) (seg : List ℤ),
          processChunk mulAt fp tp fr 2 seg = none) := by
  refine ⟨?_, ?_, rfl, ?_, ?_⟩
  · intro d
    unfold fadeTime
    exact min_le_left 50 (d / 4)
  · intro d
    unfold fadeTime
    rw [Nat.min_def]
    split <;> omega
  · intro mulAt fp tp fr chunkMs seg h
    exact processChunk_some_length mulAt fp tp fr chunkMs seg h
  · intro mulAt fp tp fr seg
    rfl

/-- Claim C5 witness: a 40 ms chunk at 16 kHz is faded successfully with its
640 samples preserved. -/
theorem c5_fade_policy_witness :
    fadeTime 40 ≠ 0 ∧
      ∃ ys, processChunk (fun _ z => z) 0 0 16000 40 (List.replicate 640 (3 : ℤ)) = some ys ∧
        ys.length = 640 := by
  have h : fadeTime 40 ≠ 0 := by decide
  obtain ⟨ys, hys, hlen⟩ :=
    c5_fade_policy.2.2.2.1 (fun _ z => z) 0 0 16000 40 (List.replicate 640 (3 : ℤ)) h
  exact ⟨h, ys, hys, by rw [hlen, List.length_replicate]⟩

/-- Claim C5 counterexample: a 2 ms chunk (such as the single chunk pydub
split_on_silence returns for a 2 ms fully voiced input) yields fade time 0,
and the fade raises (none) instead of applying a degenerate no-op fade. -/
theorem c5_counterexample :
    fadeTime 2 = 0 ∧
      processChunk (fun _ z => z) 0 0 16000 2 (List.replicate 32 (100 : ℤ)) = none :=
  ⟨rfl, rfl⟩

theorem sosfiltAux_length (b0 b1 b2 a1 a2 : ℚ) :
    ∀ (xs : List ℚ) (z1 z2 : ℚ), (sosfiltAux b0 b1 b2 a1 a2 xs z1 z2).length = xs.length := by
  intro xs
  induction xs with
  | nil => intro z1 z2; rfl
  | cons x rest ih => intro z1 z2; simp only [sosfiltAux, List.length_cons, ih]

theorem oddExt_length (edge : ℕ) (xs : List ℚ) (h : edge < xs.length) :
    (oddExt edge xs).length = xs.length + 2 * edge := by
  unfold oddExt
  simp only [List.length_append, List.length_map, List.length_reverse, List.length_take,
    List.length_drop, List.length_dropLast]
  omega

theorem compressGo_length (rmsOf : List ℤ → ℚ) (dbOver : ℚ → ℚ) (mulAt : ℚ → ℤ → ℤ)
    (threshRms cRatio atkFrames relFrames : ℚ) (look : ℕ) (xs : List ℤ) :
    ∀ (idx : List ℕ) (att : ℚ),
      (compressGo rmsOf dbOver mulAt threshRms cRatio atkFrames relFrames look xs
        idx att).length = idx.length := by
  intro idx
  induction idx with
  | nil => intro att; rfl
  | cons i rest ih => intro att; simp only [compressGo, List.length_cons, ih]

/-- Claim C7 (amended): the Pre-filter preserves sample count on every
non-empty buffer; the int16-to-float and float-to-int16 conversions and the
Dynamic Range Compressor preserve sample count on every buffer; each
noise-reduction pass returns `min (input length) (inner spectral-gate output
length)` samples, so it never lengthens its input and preserves length
exactly when the inner transform covers the signal; and the breath high-pass
(sosfiltfilt of a full second-order section) preserves sample count whenever
the input is longer than its 9-sample padding but raises ValueError on
shorter inputs. -/
theorem c7_stage_lengths :
    (∀ (alpha : ℚ) (mn mx : ℤ) (xs : List ℤ), xs ≠ [] →
        ∃ ys, pydubHighPassFilter alpha mn mx xs = some ys ∧ ys.length = xs.length) ∧
      (∀ xs : List ℤ, (toFloatSamples xs).length = xs.length) ∧
      (∀ (f : List ℚ → List ℚ) (y : List ℚ),
          (nrReduceNoise f y).length = min y.length (f y).length) ∧
      (∀ (b0 b1 b2 a1 a2 zi1 zi2 : ℚ) (xs : List ℚ), b2 ≠ 0 → a2 ≠ 0 →
          9 < xs.length →
          ∃ ys, sosfiltfiltBiquad b0 b1 b2 a1 a2 zi1 zi2 xs = some ys ∧
            ys.length = xs.length) ∧
      (∀ (b0 b1 b2 a1 a2 zi1 zi2 : ℚ) (xs : List ℚ), b2 ≠ 0 → a2 ≠ 0 →
          xs.length ≤ 9 →
          sosfiltfiltBiquad b0 b1 b2 a1 a2 zi1 zi2 xs = none) ∧
      (∀ ys : List ℚ, (toInt16Samples ys).length = ys.length) ∧
      (∀ (rmsOf : List ℤ → ℚ) (dbOver : ℚ → ℚ) (mulAt : ℚ → ℤ → ℤ)
          (threshRms cRatio atkFrames relFrames : ℚ) (look : ℕ) (xs : List ℤ),
          (pydubCompressDynamicRange rmsOf dbOver mulAt threshRms cRatio atkFrames
            relFrames look xs).length = xs.length) := by
  refine ⟨?_, ?_, ?_, ?_, ?_, ?_, ?_⟩
  · intro alpha mn mx xs h
    exact pydubHighPassFilter_some_length alpha mn mx xs h
  · intro xs
    simp only [toFloatSamples, List.length_map]
  · intro f y
    simp only [nrReduceNoise, List.length_take]
  · intro b0 b1 b2 a1 a2 zi1 zi2 xs hb2 ha2 hlen
    have h1 : (if b2 = (0 : ℚ) then (1 : ℕ) else 0) = 0 := if_neg hb2
    have h2 : (if a2 = (0 : ℚ) then (1 : ℕ) else 0) = 0 := if_neg ha2
    simp only [sosfiltfiltBiquad, h1, h2, Nat.min_self, Nat.sub_zero]
    rw [if_neg (by omega : ¬ xs.length ≤ 3 * 3)]
    refine ⟨_, rfl, ?_⟩
    have hext : (oddExt (3 * 3) xs).length = xs.length + 2 * (3 * 3) :=
      oddExt_length (3 * 3) xs (by omega)
    simp only [List.length_take, List.length_drop, List.length_reverse, sosfiltAux_length,
      hext]
    omega
  · intro b0 b1 b2 a1 a2 zi1 zi2 xs hb2 ha2 hlen
    have h1 : (if b2 = (0 : ℚ) then (1 : ℕ) else 0) = 0 := if_neg hb2
    have h2 : (if a2 = (0 : ℚ) then (1 : ℕ) else 0) = 0 := if_neg ha2
    simp only [sosfiltfiltBiquad, h1, h2, Nat.min_self, Nat.sub_zero]
    rw [if_pos (by omega : xs.length ≤ 3 * 3)]
  · intro ys
    simp only [toInt16Samples, List.length_map]
  · intro rmsOf dbOver mulAt threshRms cRatio atkFrames relFrames look xs
    simp only [pydubCompressDynamicRange, compressGo_length, List.length_range]

/-- Claim C7 witness: concrete stage runs with preserved lengths — the
pre-filter on a 3-sample buffer and the breath filter on a 10-sample buffer
with a full-coefficient section. -/
theorem c7_stage_lengths_witness :
    (∃ ys, pydubHighPassFilter (1 / 2) (-32768) 32767 [2, 3, 4] = some ys ∧
        ys.length = 3) ∧
      ∃ ys, sosfiltfiltBiquad 1 (-2) 1 (1 / 2) (1 / 4) 0 0
          [0, 1, 2, 3, 4, 5, 6, 7, 8, 9] = some ys ∧ ys.length = 10 := by
  constructor
  · simpa using c7_stage_lengths.1 (1 / 2) (-32768) 32767 [2, 3, 4] (by simp)
  · simpa using c7_stage_lengths.2.2.2.1 1 (-2) 1 (1 / 2) (1 / 4) 0 0
      [0, 1, 2, 3, 4, 5, 6, 7, 8, 9] (by norm_num) (by norm_num) (by simp)

/-- Claim C7 counterexample: the breath high-pass stage raises on a non-empty
5-sample buffer instead of producing a same-length output, so not every input
buffer round-trips through the middle stages with its sample count. -/
theorem c7_counterexample :
    sosfiltfiltBiquad 1 (-2) 1 (1 / 2) (1 / 4) 0 0 [1, 2, 3, 4, 5] = none ∧
      ([1, 2, 3, 4, 5] : List ℚ) ≠ [] := by
  constructor
  · have h1 : (if (1 : ℚ) = (0 : ℚ) then (1 : ℕ) else 0) = 0 := if_neg (by norm_num)
    have h2 : (if (1 / 4 : ℚ) = (0 : ℚ) then (1 : ℕ) else 0) = 0 := if_neg (by norm_num)
    simp only [sosfiltfiltBiquad, h1, h2, Nat.min_self, Nat.sub_zero]
    rw [if_pos (by decide : ([1, 2, 3, 4, 5] : List ℚ).length ≤ 3 * 3)]
  · simp

theorem sumSq_scale (g : ℚ) (xs : List ℚ) : sumSq (scaleQ g xs) = g ^ 2 * sumSq xs := by
  induction xs with
  | nil => simp [sumSq, scaleQ]
  | cons x rest ih =>
      have hre : sumSq (scaleQ g rest) = g ^ 2 * sumSq rest := ih
      simp only [sumSq, scaleQ, List.map_cons, List.sum_cons] at hre ⊢
      rw [hre]
      ring

theorem scaleQ_length (g : ℚ) (xs : List ℚ) : (scaleQ g xs).length = xs.length := by
  simp [scaleQ]

theorem meanPower_scale (g : ℚ) (xs : List ℚ) :
    meanPower (scaleQ g xs) = g ^ 2 * meanPower xs := by
  unfold meanPower
  rw [sumSq_scale, scaleQ_length, mul_div_assoc]

theorem gainToTarget_meanPower (tp : ℚ) (xs ys : List ℚ) (h : GainToTarget tp xs ys) :
    meanPower ys = tp := by
  obtain ⟨g, hg0, rfl, hg⟩ := h
  rw [meanPower_scale]
  exact hg

/-- Claim C8: the Loudness Normalizer stage (peak normalization with fixed
headroom followed by linear gain to the target loudness) is idempotent with
respect to loudness in exact arithmetic: any run of the stage leaves the
buffer at the target mean power, so applying the stage twice with the same
target yields the same measured loudness as applying it once (the claimed
floating-point tolerance covers only int16 rounding, absent from this exact
model). -/
theorem c8_normalizer_idempotent (headroomPeak targetPower : ℚ) (x y z : List ℚ)
    (h1 : NormalizerStage headroomPeak targetPower x y)
    (h2 : NormalizerStage headroomPeak targetPower y z) :
    meanPower z = meanPower y := by
  have e1 : meanPower y = targetPower := gainToTarget_meanPower _ _ _ h1
  have e2 : meanPower z = targetPower := gainToTarget_meanPower _ _ _ h2
  rw [e1, e2]

/-- Claim C8 witness: a concrete one-sample buffer at headroom peak 1 and
target power 4 is a fixed point of the stage, and the theorem applied twice
gives equal loudness. -/
theorem c8_normalizer_idempotent_witness :
    NormalizerStage 1 4 [(2 : ℚ)] [(2 : ℚ)] ∧
      meanPower [(2 : ℚ)] = meanPower [(2 : ℚ)] := by
  have hmax : maxAbsQ [(2 : ℚ)] = 2 := by
    unfold maxAbsQ
    simp only [List.map_cons, List.map_nil, List.foldr_cons, List.foldr_nil]
    rw [abs_of_nonneg (by norm_num : (0 : ℚ) ≤ 2)]
    exact max_eq_left (by norm_num)
  have hnorm : pydubNormalizeLin 1 [(2 : ℚ)] = [(1 : ℚ)] := by
    unfold pydubNormalizeLin
    rw [hmax, if_neg (by norm_num : (2 : ℚ) ≠ 0)]
    unfold scaleQ
    norm_num
  have hstage : NormalizerStage 1 4 [(2 : ℚ)] [(2 : ℚ)] := by
    unfold NormalizerStage
    rw [hnorm]
    refine ⟨2, by norm_num, ?_, ?_⟩
    · unfold scaleQ
      norm_num
    · unfold meanPower sumSq
      norm_num
  exact ⟨hstage, c8_normalizer_idempotent 1 4 [(2 : ℚ)] [(2 : ℚ)] [(2 : ℚ)] hstage hstage⟩

theorem coveredBy_cons (p : ℕ × ℕ) (l : List (ℕ × ℕ)) (x : ℕ) :
    coveredBy (p :: l) x ↔ (p.1 ≤ x ∧ x < p.2) ∨ coveredBy l x := by
  constructor
  · rintro ⟨q, hq, h1, h2⟩
    rcases List.mem_cons.mp hq with rfl | hmem
    · exact Or.inl ⟨h1, h2⟩
    · exact Or.inr ⟨q, hmem, h1, h2⟩
  · rintro (⟨h1, h2⟩ | ⟨q, hmem, h1, h2⟩)
    · exact ⟨p, List.mem_cons_self _ _, h1, h2⟩
    · exact ⟨q, List.mem_cons_of_mem _ hmem, h1, h2⟩

theorem boolRunsAux_coveredBy (flags : List Bool) :
    ∀ (i : ℕ) (st : Option ℕ), (∀ s, st = some s → s ≤ i) →
      ∀ x, coveredBy (boolRunsAux flags i st) x ↔
        ((∃ s, st = some s ∧ s ≤ x ∧ x < i) ∨
          ∃ j, flags[j]? = some true ∧ x = i + j) := by
  induction flags with
  | nil =>
      intro i st hst x
      cases st with
      | none => simp [boolRunsAux, coveredBy]
      | some s => simp [boolRunsAux, coveredBy]
  | cons b rest ih =>
      intro i st hst x
      cases st with
      | none =>
          cases b with
          | false =>
              have hrw : boolRunsAux (false :: rest) i none = boolRunsAux rest (i + 1) none := by
                simp [boolRunsAux]
              rw [hrw, ih (i + 1) none (by intro s hs; cases hs) x]
              constructor
              · rintro (⟨s, hs, _⟩ | ⟨j, hj, hx⟩)
                · cases hs
                · exact Or.inr ⟨j + 1, by simpa using hj, by omega⟩
              · rintro (⟨s, hs, _⟩ | ⟨j, hj, hx⟩)
                · cases hs
                · cases j with
                  | zero => simp at hj
                  | succ k =>
                      rw [List.getElem?_cons_succ] at hj
                      exact Or.inr ⟨k, hj, by omega⟩
          | true =>
              have hrw : boolRunsAux (true :: rest) i none =
                  boolRunsAux rest (i + 1) (some i) := by
                simp [boolRunsAux]
              rw [hrw, ih (i + 1) (some i) (by intro s hs; injection hs with h; omega) x]
              constructor
              · rintro (⟨s, hs, h1, h2⟩ | ⟨j, hj, hx⟩)
                · injection hs with h
                  subst h
                  exact Or.inr ⟨0, by simp, by omega⟩
                · exact Or.inr ⟨j + 1, by simpa using hj, by omega⟩
              · rintro (⟨s, hs, _⟩ | ⟨j, hj, hx⟩)
                · cases hs
                · cases j with
                  | zero => exact Or.inl ⟨i, rfl, by omega, by omega⟩
                  | succ k =>
                      rw [List.getElem?_cons_succ] at hj
                      exact Or.inr ⟨k, hj, by omega⟩
      | some s =>
          have hsi : s ≤ i := hst s rfl
          cases b with
          | true =>
              have hrw : boolRunsAux (true :: rest) i (some s) =
                  boolRunsAux rest (i + 1) (some s) := by
                simp [boolRunsAux]
              rw [hrw, ih (i + 1) (some s)
                (by intro s0 hs0; injection hs0 with h; omega) x]
              constructor
              · rintro (⟨s0, hs0, h1, h2⟩ | ⟨j, hj, hx⟩)
                · injection hs0 with h
                  subst h
                  rcases Nat.lt_or_ge x i with hxi | hxi
                  · exact Or.inl ⟨s, rfl, h1, hxi⟩
                  · exact Or.inr ⟨0, by simp, by omega⟩
                · exact Or.inr ⟨j + 1, by simpa using hj, by omega⟩
              · rintro (⟨s0, hs0, h1, h2⟩ | ⟨j, hj, hx⟩)
                · injection hs0 with h
                  subst h
                  exact Or.inl ⟨s, rfl, h1, by omega⟩
                · cases j with
                  | zero => exact Or.inl ⟨s, rfl, by omega, by omega⟩
                  | succ k =>
                      rw [List.getElem?_cons_succ] at hj
                      exact Or.inr ⟨k, hj, by omega⟩
          | false =>
              have hrw : boolRunsAux (false :: rest) i (some s) =
                  (s, i) :: boolRunsAux rest (i + 1) none := by
                simp [boolRunsAux]
              rw [hrw, coveredBy_cons, ih (i + 1) none (by intro s0 hs0; cases hs0) x]
              constructor
              · rintro (⟨h1, h2⟩ | (⟨s0, hs0, _⟩ | ⟨j, hj, hx⟩))
                · exact Or.inl ⟨s, rfl, h1, h2⟩
                · cases hs0
                · exact Or.inr ⟨j + 1, by simpa using hj, by omega⟩
              · rintro (⟨s0, hs0, h1, h2⟩ | ⟨j, hj, hx⟩)
                · injection hs0 with h
                  subst h
                  exact Or.inl ⟨h1, h2⟩
                · cases j with
                  | zero => simp at hj
                  | succ k =>
                      rw [List.getElem?_cons_succ] at hj
                      exact Or.inr (Or.inr ⟨k, hj, by omega⟩)

theorem boolRuns_coveredBy (flags : List Bool) (x : ℕ) :
    coveredBy (boolRuns flags) x ↔ flags[x]? = some true := by
  unfold boolRuns
  rw [boolRunsAux_coveredBy flags 0 none (by intro s hs; cases hs) x]
  constructor
  · rintro (⟨s, hs, _⟩ | ⟨j, hj, hx⟩)
    · cases hs
    · subst hx
      simpa using hj
  · intro h
    exact Or.inr ⟨x, h, by omega⟩

theorem framesToIntervals_coveredBy (hop n : ℕ) (runs : List (ℕ × ℕ)) (x : ℕ) :
    coveredBy (framesToIntervals hop n runs) x ↔
      (x < n ∧ ∃ p ∈ runs, p.1 * hop ≤ x ∧ x < p.2 * hop) := by
  unfold framesToIntervals coveredBy
  constructor
  · rintro ⟨q, hq, h1, h2⟩
    obtain ⟨p, hp, rfl⟩ := List.mem_map.mp hq
    have hxn : x < n := lt_of_lt_of_le h2 (min_le_right _ _)
    have hx2 : x < p.2 * hop := lt_of_lt_of_le h2 (min_le_left _ _)
    have hx1 : p.1 * hop ≤ x := by
      rcases min_le_iff.mp h1 with h | h
      · exact h
      · omega
    exact ⟨hxn, p, hp, hx1, hx2⟩
  · rintro ⟨hxn, p, hp, h1, h2⟩
    refine ⟨(min (p.1 * hop) n, min (p.2 * hop) n), List.mem_map_of_mem _ hp, ?_, ?_⟩
    · exact le_trans (min_le_left _ _) h1
    · exact lt_min h2 hxn

theorem librosaSplit_coveredBy (amin tau : ℚ) (fl hop : ℕ) (y : List ℚ) (x : ℕ)
    (hhop : 0 < hop) :
    coveredBy (librosaSplit amin tau fl hop y) x ↔
      (x < y.length ∧ (lrNonSilent amin tau fl hop y)[x / hop]? = some true) := by
  unfold librosaSplit
  rw [framesToIntervals_coveredBy]
  constructor
  · rintro ⟨hxn, p, hp, h1, h2⟩
    refine ⟨hxn, ?_⟩
    rw [← boolRuns_coveredBy]
    exact ⟨p, hp, (Nat.le_div_iff_mul_le hhop).mpr h1,
      (Nat.div_lt_iff_lt_mul hhop).mpr h2⟩
  · rintro ⟨hxn, hflag⟩
    obtain ⟨p, hp, h1, h2⟩ := (boolRuns_coveredBy _ _).mpr hflag
    refine ⟨hxn, p, hp, ?_, ?_⟩
    · calc p.1 * hop ≤ (x / hop) * hop := Nat.mul_le_mul_right hop h1
        _ ≤ x := Nat.div_mul_le_self x hop
    · have hx : x < (x / hop + 1) * hop := by
        have hd := Nat.div_add_mod x hop
        have hm := Nat.mod_lt x hhop
        calc x = hop * (x / hop) + x % hop := hd.symm
          _ < hop * (x / hop) + hop := by omega
          _ = (x / hop + 1) * hop := by ring
      calc x < (x / hop + 1) * hop := hx
        _ ≤ p.2 * hop := Nat.mul_le_mul_right hop (by omega)

theorem foldr_max_nonneg (l : List ℚ) : 0 ≤ l.foldr max 0 := by
  induction l with
  | nil => exact le_refl 0
  | cons a l ih => exact le_trans ih (le_max_right a _)

theorem lrRefPower_nonneg (fl hop : ℕ) (y : List ℚ) : 0 ≤ lrRefPower fl hop y :=
  foldr_max_nonneg _

theorem lrNonSilent_mono (amin tau1 tau2 : ℚ) (fl hop : ℕ) (y : List ℚ) (j : ℕ)
    (htau : tau1 ≤ tau2)
    (h : (lrNonSilent amin tau2 fl hop y)[j]? = some true) :
    (lrNonSilent amin tau1 fl hop y)[j]? = some true := by
  unfold lrNonSilent at h ⊢
  rw [List.getElem?_map] at h ⊢
  cases hr : (List.range (lrFrameCount fl hop y))[j]? with
  | none => rw [hr] at h; simp at h
  | some i =>
      rw [hr] at h
      simp only [Option.map_some'] at h ⊢
      have hc2 : tau2 * max amin (lrRefPower fl hop y) <
          max amin (lrFramePower fl hop y i) :=
        of_decide_eq_true (Option.some.inj h)
      have hR : (0 : ℚ) ≤ max amin (lrRefPower fl hop y) :=
        le_trans (lrRefPower_nonneg fl hop y) (le_max_right _ _)
      have hle : tau1 * max amin (lrRefPower fl hop y) ≤
          tau2 * max amin (lrRefPower fl hop y) :=
        mul_le_mul_of_nonneg_right htau hR
      rw [decide_eq_true (lt_of_le_of_lt hle hc2)]

/-- Claim C6: segmenter monotonicity in the silence threshold — for a more
sensitive threshold T1 < T2 in dBFS the linear ratios satisfy
tau1 = 10^(-|T1|/10) < tau2 = 10^(-|T2|/10) (the code passes
top_db = abs(silence_threshold)), and every sample covered by the non-silent
intervals computed at tau2 is also covered by those computed at tau1, i.e.
the T2 interval set covers a subset of the samples covered by the T1 set. -/
theorem c6_threshold_monotone (amin tau1 tau2 : ℚ) (fl hop : ℕ) (y : List ℚ) (x : ℕ)
    (hhop : 0 < hop) (htau : tau1 ≤ tau2)
    (hx : coveredBy (librosaSplit amin tau2 fl hop y) x) :
    coveredBy (librosaSplit amin tau1 fl hop y) x := by
  rw [librosaSplit_coveredBy _ _ _ _ _ _ hhop] at hx ⊢
  exact ⟨hx.1, lrNonSilent_mono amin tau1 tau2 fl hop y _ htau hx.2⟩

theorem sumSq_eq_zero (xs : List ℚ) (h : ∀ v ∈ xs, v = 0) : sumSq xs = 0 := by
  induction xs with
  | nil => simp [sumSq]
  | cons a l ih =>
      have ha := h a (List.mem_cons_self a l)
      have hl : ∀ v ∈ l, v = 0 := fun v hv => h v (List.mem_cons_of_mem a hv)
      have hrest := ih hl
      simp only [sumSq, List.map_cons, List.sum_cons] at hrest ⊢
      rw [ha, hrest]
      ring

theorem lrPadded_zero_mem (fl n : ℕ) :
    ∀ v ∈ lrPadded fl (List.replicate n (0 : ℚ)), v = 0 := by
  intro v hv
  unfold lrPadded at hv
  rcases List.mem_append.mp hv with h | h
  · rcases List.mem_append.mp h with h2 | h2
    · exact List.eq_of_mem_replicate h2
    · exact List.eq_of_mem_replicate h2
  · exact List.eq_of_mem_replicate h

theorem lrFramePower_zero (fl hop n i : ℕ) :
    lrFramePower fl hop (List.replicate n (0 : ℚ)) i = 0 := by
  unfold lrFramePower
  rw [sumSq_eq_zero, zero_div]
  intro v hv
  exact lrPadded_zero_mem fl n v (List.mem_of_mem_drop (List.mem_of_mem_take hv))

theorem foldr_max_zero (l : List ℚ) (h : ∀ v ∈ l, v = 0) : l.foldr max 0 = 0 := by
  induction l with
  | nil => rfl
  | cons a l ih =>
      have ha := h a (List.mem_cons_self a l)
      have hl : ∀ v ∈ l, v = 0 := fun v hv => h v (List.mem_cons_of_mem a hv)
      simp [List.foldr_cons, ha, ih hl]

theorem lrRefPower_zero (fl hop n : ℕ) :
    lrRefPower fl hop (List.replicate n (0 : ℚ)) = 0 := by
  unfold lrRefPower
  apply foldr_max_zero
  intro v hv
  obtain ⟨i, _, rfl⟩ := List.mem_map.mp hv
  exact lrFramePower_zero fl hop n i

theorem lrNonSilent_zero (amin tau : ℚ) (fl hop n : ℕ) (ha : 0 < amin) (ht : tau < 1) :
    lrNonSilent amin tau fl hop (List.replicate n (0 : ℚ)) =
      List.replicate (lrFrameCount fl hop (List.replicate n (0 : ℚ))) true := by
  unfold lrNonSilent
  refine List.eq_replicate_iff.mpr ⟨by simp, ?_⟩
  intro b hb
  obtain ⟨i, _, rfl⟩ := List.mem_map.mp hb
  rw [lrFramePower_zero, lrRefPower_zero]
  have hm : max amin (0 : ℚ) = amin := max_eq_left ha.le
  rw [hm]
  have hlt : tau * amin < 1 * amin := mul_lt_mul_of_pos_right ht ha
  rw [one_mul] at hlt
  exact decide_eq_true hlt

theorem boolRunsAux_replicate_true (m : ℕ) :
    ∀ (i s : ℕ), boolRunsAux (List.replicate m true) i (some s) = [(s, i + m)] := by
  induction m with
  | zero => intro i s; simp [boolRunsAux]
  | succ k ih =>
      intro i s
      have hadd : i + 1 + k = i + (k + 1) := by omega
      simp only [List.replicate_succ, boolRunsAux, if_true]
      rw [ih (i + 1) s, hadd]

theorem boolRuns_replicate_true (m : ℕ) (hm : 0 < m) :
    boolRuns (List.replicate m true) = [(0, m)] := by
  obtain ⟨k, rfl⟩ := Nat.exists_eq_succ_of_ne_zero (Nat.pos_iff_ne_zero.mp hm)
  unfold boolRuns
  simp only [List.replicate_succ, boolRunsAux, if_true]
  rw [boolRunsAux_replicate_true k 1 0]
  have : 1 + k = k + 1 := by omega
  rw [this]

theorem librosaSplit_zero (amin tau : ℚ) (fl hop n : ℕ) (ha : 0 < amin) (ht : tau < 1) :
    librosaSplit amin tau fl hop (List.replicate n (0 : ℚ)) =
      [(0, min (lrFrameCount fl hop (List.replicate n (0 : ℚ)) * hop) n)] := by
  unfold librosaSplit
  rw [lrNonSilent_zero amin tau fl hop n ha ht]
  rw [boolRuns_replicate_true _ (by unfold lrFrameCount; exact Nat.succ_pos _)]
  unfold framesToIntervals
  simp

theorem lrPadded_length (fl : ℕ) (y : List ℚ) :
    (lrPadded fl y).length = fl / 2 + y.length + fl / 2 := by
  unfold lrPadded
  rw [List.length_append, List.length_append, List.length_replicate]

theorem lrFrameCount_formula (fl hop : ℕ) (y : List ℚ) :
    lrFrameCount fl hop y = (fl / 2 + y.length + fl / 2 - fl) / hop + 1 := by
  unfold lrFrameCount
  rw [lrPadded_length]

theorem lrFrameCount_zero48000 :
    lrFrameCount 2048 512 (List.replicate 48000 (0 : ℚ)) = 94 := by
  rw [lrFrameCount_formula, List.length_replicate]

theorem pipelineTail_nonempty (gNorm gTarget : ℤ → ℤ) (lpAlpha hpAlpha : ℚ)
    (chunks : List (List ℤ)) (hflat : chunks.flatten ≠ []) :
    ∃ ys, pipelineTail gNorm gTarget lpAlpha hpAlpha chunks = some ys := by
  have hn : (pydubNormalizeSeg gNorm chunks.flatten).length = chunks.flatten.length := by
    unfold pydubNormalizeSeg
    split
    · rfl
    · simp only [pydubApplyGain, List.length_map]
  have h2 : (pydubApplyGain gTarget (pydubNormalizeSeg gNorm chunks.flatten)).length =
      chunks.flatten.length := by
    simp only [pydubApplyGain, List.length_map, hn]
  have hne : pydubApplyGain gTarget (pydubNormalizeSeg gNorm chunks.flatten) ≠ [] := by
    intro hcontra
    rw [hcontra] at h2
    exact hflat (List.length_eq_zero.mp h2.symm)
  obtain ⟨z, zs, hz⟩ := List.exists_cons_of_ne_nil hne
  simp only [pipelineTail]
  rw [hz]
  simp only [pydubLowPassFilter]
  exact ⟨_, rfl⟩

/-- Claim C2 (amended): for the all-zero 3-second 16 kHz buffer (all samples
below any dBFS threshold) the Segmenter returns the single whole-buffer
interval rather than an empty sequence — librosa thresholds frame power
relative to the maximum frame power (tau = 10^(-50/10), amin = 1e-10), so a
uniformly quiet buffer is entirely non-silent; the Noise Profile Builder
still falls back to the first 1-second window because no silence gaps exist;
and the stages after the Chunk Splitter succeed exactly when at least one
nonempty chunk survives: on a nonempty concatenation they produce an output,
but on zero chunks the final filter stage indexes an empty array and raises
instead of succeeding. -/
theorem c2_all_silent_scenario :
    librosaSplit (1 / 10000000000) (1 / 100000) 2048 512 (List.replicate 48000 (0 : ℚ)) =
        [(0, 48000)] ∧
      buildNoiseProfile (List.replicate 48000 (0 : ℚ)) [(0, 48000)] 16000 =
        List.replicate 16000 (0 : ℚ) ∧
      (∀ (gNorm gTarget : ℤ → ℤ) (lpAlpha hpAlpha : ℚ),
          pipelineTail gNorm gTarget lpAlpha hpAlpha [] = none) ∧
      (∀ (gNorm gTarget : ℤ → ℤ) (lpAlpha hpAlpha : ℚ) (chunks : List (List ℤ)),
          chunks.flatten ≠ [] →
          ∃ ys, pipelineTail gNorm gTarget lpAlpha hpAlpha chunks = some ys) := by
  refine ⟨?_, ?_, ?_, ?_⟩
  · rw [librosaSplit_zero _ _ _ _ _ (by norm_num) (by norm_num), lrFrameCount_zero48000]
    norm_num
  · have hc : collectNoise (List.replicate 48000 (0 : ℚ)) [(0, 48000)] 0 = [] := by
      simp [collectNoise]
    simp only [buildNoiseProfile, hc, List.isEmpty_nil, if_true, List.take_replicate]
    norm_num
  · intro gNorm gTarget lpAlpha hpAlpha
    rfl
  · intro gNorm gTarget lpAlpha hpAlpha chunks hflat
    exact pipelineTail_nonempty gNorm gTarget lpAlpha hpAlpha chunks hflat

/-- Claim C2 witness: a single one-sample chunk flows through the
post-splitter stages successfully. -/
theorem c2_all_silent_scenario_witness :
    (([[5]] : List (List ℤ)).flatten ≠ []) ∧
      ∃ ys, pipelineTail id id (1 / 2) (1 / 2) [[5]] = some ys := by
  have h : (([[5]] : List (List ℤ)).flatten ≠ []) := by simp
  exact ⟨h, c2_all_silent_scenario.2.2.2 id id (1 / 2) (1 / 2) [[5]] h⟩

/-- Claim C2 counterexample: on the all-zero 3-second 16 kHz buffer the
Segmenter does not return an empty interval sequence, and the post-splitter
stages raise (none) on the empty zero-chunk output instead of succeeding. -/
theorem c2_counterexample :
    librosaSplit (1 / 10000000000) (1 / 100000) 2048 512 (List.replicate 48000 (0 : ℚ)) ≠
        [] ∧
      pipelineTail id id (1 / 2) (1 / 2) [] = none := by
  constructor
  · rw [librosaSplit_zero _ _ _ _ _ (by norm_num) (by norm_num)]
    exact List.cons_ne_nil _ _
  · rfl

/-- Claim C6 witness: on a one-sample zero buffer with frame length 2 and hop
1, sample 0 is covered at linear threshold 1/2, hence also at the more
sensitive threshold 1/4. -/
theorem c6_threshold_monotone_witness :
    ((1 : ℚ) / 4 ≤ 1 / 2) ∧
      coveredBy (librosaSplit (1 / 10000000000) (1 / 4) 2 1 (List.replicate 1 (0 : ℚ))) 0 := by
  have hnf : lrFrameCount 2 1 (List.replicate 1 (0 : ℚ)) = 2 := by
    rw [lrFrameCount_formula, List.length_replicate]
  have hc2 : coveredBy
      (librosaSplit (1 / 10000000000) (1 / 2) 2 1 (List.replicate 1 (0 : ℚ))) 0 := by
    rw [librosaSplit_zero _ _ _ _ _ (by norm_num) (by norm_num), hnf]
    exact ⟨(0, min (2 * 1) 1), List.mem_singleton.mpr rfl, le_refl 0, by norm_num⟩
  exact ⟨by norm_num,
    c6_threshold_monotone (1 / 10000000000) (1 / 4) (1 / 2) 2 1
      (List.replicate 1 (0 : ℚ)) 0 (by norm_num) (by norm_num) hc2⟩

end WaveClean
